import Mathlib

/-!
Shallow embedding of `go-conf-builder` (package `conf`, file `v1/conf/config.go`)
together with proofs about its resolution, merge, traversal, environment and
reload behaviour.

Modelling conventions:
* Go's dynamic `any` values, as inspected by this package's type switches, are
  modelled by the inductive `Value`.  The constructors cover the dynamic types
  the package's code branches on: `string`, `int`, `int64`, `float64`, `bool`,
  `nil`, `[]any`, `map[string]any`, `map[string]string` and `map[any]any`.
  The remaining exotic cases of the Go type switches (`[]map[string]any`,
  `[]map[any]any`, `[]string`, `[]int`, `json.Number`, `time.Duration`,
  `float32`, `map[string][]string`) are handled by the Go code exactly like
  one of the modelled cases and are omitted from the universe.
* Go maps are modelled as association lists; `lookupKey` (first match) and
  `setKey` (replace first match, else append) give the observable map
  behaviour.  Go guarantees key uniqueness, which theorems assume where it
  matters (as a `Nodup` hypothesis).
* `float64` is modelled exactly by `Rat`; Go's conversion `int(f)` truncates
  toward zero, which is `ratTruncToZero` below.
* Machine integers are modelled as unbounded `Int`.  `strconv.Atoi`'s range
  error is therefore not modelled; in `fetchValue` the only use of the parsed
  integer is a bounds check against a slice length, where an out-of-range
  value fails exactly as the range error does.
-/

namespace GoConf

/-- Go `any` restricted to the dynamic types `config.go` inspects. -/
inductive Value where
  | vnull : Value
  | vstr (s : String) : Value
  | vint (n : Int) : Value
  | vint64 (n : Int) : Value
  | vfloat (q : Rat) : Value
  | vbool (b : Bool) : Value
  | varr (xs : List Value) : Value
  | vmap (m : List (String × Value)) : Value
  | vmapS (m : List (String × String)) : Value
  | vmapA (m : List (Value × Value)) : Value

/-- First-match lookup in an association list, the observable behaviour of a
Go `map[string]any` read `m[k]`. -/
def lookupKey : List (String × Value) → String → Option Value
  | [], _ => none
  | (k, v) :: rest, key => if k = key then some v else lookupKey rest key

/-- Lookup in a `map[string]string`. -/
def lookupStr : List (String × String) → String → Option String
  | [], _ => none
  | (k, v) :: rest, key => if k = key then some v else lookupStr rest key

/-- Lookup of a string key in a `map[any]any`: Go interface equality makes a
`string` key equal to an `any` entry exactly when that entry holds the same
string. -/
def lookupAny : List (Value × Value) → String → Option Value
  | [], _ => none
  | (Value.vstr k, v) :: rest, key => if k = key then some v else lookupAny rest key
  | _ :: rest, key => lookupAny rest key

/-- Go map assignment `m[k] = v`: replace the entry if the key is present,
otherwise add it. -/
def setKey : List (String × Value) → String → Value → List (String × Value)
  | [], key, v => [(key, v)]
  | (k, w) :: rest, key, v =>
      if k = key then (k, v) :: rest else (k, w) :: setKey rest key v

/-- `mergeMaps` from `config.go`: fold `src` into `dst`; when both sides hold
a `map[string]any` at a key the submaps merge recursively, otherwise the
`src` value replaces the `dst` value.  Go iterates the `src` map in
unspecified order and mutates `dst` in place; since Go map keys are unique,
the entries are independent and the left-to-right fold below yields the same
final mapping. -/
def mergeMaps : List (String × Value) → List (String × Value) → List (String × Value)
  | dst, [] => dst
  | dst, (k, Value.vmap nm) :: rest =>
      (match lookupKey dst k with
        | some (Value.vmap em) => mergeMaps (setKey dst k (Value.vmap (mergeMaps em nm))) rest
        | _ => mergeMaps (setKey dst k (Value.vmap nm)) rest)
  | dst, (k, v) :: rest => mergeMaps (setKey dst k v) rest
termination_by _ src => sizeOf src

/-- Splitting a character list on a separator character; models
`strings.Split` for the single-character separators (`"."`, `","`) the
package uses.  `strings.Split("", sep)` is `[""]`, matched by the `[]` case. -/
def splitOnChar (sep : Char) : List Char → List (List Char)
  | [] => [[]]
  | c :: cs =>
      match splitOnChar sep cs with
      | [] => [[]]
      | grp :: rest => if c = sep then [] :: grp :: rest else (c :: grp) :: rest

/-- `strings.Split` on a one-character separator, producing strings. -/
def goSplit (s : String) (sep : Char) : List String :=
  (splitOnChar sep s.data).map List.asString

/-- Numeric value of a decimal digit run. -/
def digitsVal (cs : List Char) : Nat :=
  cs.foldl (fun acc c => acc * 10 + (c.toNat - '0'.toNat)) 0

/-- Parse a non-empty all-decimal character run. -/
def natFromDigits (cs : List Char) : Option Nat :=
  if cs.isEmpty then none
  else if cs.all Char.isDigit then some (digitsVal cs) else none

/-- `strconv.Atoi`: optional single leading sign, then decimal digits.
Unbounded (see module comment on range errors). -/
def goAtoi (s : String) : Option Int :=
  match s.data with
  | '-' :: rest => (natFromDigits rest).map (fun n => -(n : Int))
  | '+' :: rest => (natFromDigits rest).map (fun n => (n : Int))
  | cs => (natFromDigits cs).map (fun n => (n : Int))

/-- The walk loop of `fetchValue`: consume dotted-path segments one at a
time, starting from the root mapping.  String-keyed mapping nodes (all three
Go map shapes) look the segment up as a key; sequence nodes parse the
segment with `strconv.Atoi` and bounds-check it (`List.get?` supplies the
upper bounds check); every other node kind fails. -/
def walkPath : Value → List String → Option Value
  | current, [] => some current
  | current, part :: rest =>
      match current with
      | Value.vmap m =>
          match lookupKey m part with
          | some nxt => walkPath nxt rest
          | none => none
      | Value.vmapS m =>
          match lookupStr m part with
          | some s => walkPath (Value.vstr s) rest
          | none => none
      | Value.vmapA m =>
          match lookupAny m part with
          | some nxt => walkPath nxt rest
          | none => none
      | Value.varr xs =>
          match goAtoi part with
          | some idx =>
              if idx < 0 then none
              else
                match xs.get? idx.toNat with
                | some nxt => walkPath nxt rest
                | none => none
          | none => none
      | _ => none

/-- `fetchValue` from `config.go`: exact single-level lookup of the whole key
first; if absent, split the key on `.` and walk from the root. -/
def fetchValue (data : List (String × Value)) (key : String) : Option Value :=
  match lookupKey data key with
  | some v => some v
  | none => walkPath (Value.vmap data) (goSplit key '.')

/-- Rendering of a non-integral float; Go prints `float64` with `%g`.  Only
integral values are rendered exactly; no theorem below depends on the
rendering of a non-integral or container value. -/
def goFloatString (q : Rat) : String :=
  if q.den = 1 then toString q.num else toString q

mutual
/-- `stringify` / `fmt.Sprint` from `config.go`: a string is itself, scalars
render as Go's `%v` does (`true`/`false`, decimal integers, `<nil>` for a nil
interface).  Containers render bracketed; Go's `fmt` additionally sorts map
keys when printing, which is not modelled — no claim depends on stringifying
a container. -/
def goStringify : Value → String
  | Value.vnull => "<nil>"
  | Value.vstr s => s
  | Value.vint n => toString n
  | Value.vint64 n => toString n
  | Value.vfloat q => goFloatString q
  | Value.vbool b => if b then "true" else "false"
  | Value.varr xs => "[" ++ String.intercalate " " (stringifyList xs) ++ "]"
  | Value.vmap m => "map[" ++ String.intercalate " " (stringifyFields m) ++ "]"
  | Value.vmapS m => "map[" ++ String.intercalate " " (m.map (fun p => p.1 ++ ":" ++ p.2)) ++ "]"
  | Value.vmapA m => "map[" ++ String.intercalate " " (stringifyPairs m) ++ "]"

def stringifyList : List Value → List String
  | [] => []
  | v :: rest => goStringify v :: stringifyList rest

def stringifyFields : List (String × Value) → List String
  | [] => []
  | (k, v) :: rest => (k ++ ":" ++ goStringify v) :: stringifyFields rest

def stringifyPairs : List (Value × Value) → List String
  | [] => []
  | (k, v) :: rest => (goStringify k ++ ":" ++ goStringify v) :: stringifyPairs rest
end

mutual
/-- `cloneValue` from `config.go`: structural deep copy of the container
shapes it recognises.  `map[string]string` falls to the default case and is
returned as-is, exactly as in the source. -/
def cloneValue : Value → Value
  | Value.vmap m => Value.vmap (cloneFields m)
  | Value.vmapA m => Value.vmapA (clonePairs m)
  | Value.varr xs => Value.varr (cloneList xs)
  | v => v

def cloneFields : List (String × Value) → List (String × Value)
  | [] => []
  | (k, v) :: rest => (k, cloneValue v) :: cloneFields rest

/-- The `map[any]any` arm of `cloneValue` copies values but reuses the key
objects, as the source does. -/
def clonePairs : List (Value × Value) → List (Value × Value)
  | [] => []
  | (k, v) :: rest => (k, cloneValue v) :: clonePairs rest

def cloneList : List Value → List Value
  | [] => []
  | v :: rest => cloneValue v :: cloneList rest
end

/-- `cloneMap` from `config.go`: clone every entry's value. -/
def cloneMap (src : List (String × Value)) : List (String × Value) :=
  cloneFields src

mutual
/-- `normalizeValue` from `config.go`: recursively normalize containers; a
`map[any]any` becomes a `map[string]any` with `fmt.Sprint`-ed keys; the
string-keyed map and sequence arms normalize in place (identity of the
container is preserved — see the tagged model below); scalars and
`map[string]string` pass through the default arm unchanged. -/
def normalizeValue : Value → Value
  | Value.vmap m => Value.vmap (normalizeFields m)
  | Value.vmapA m => Value.vmap (normalizePairs m)
  | Value.varr xs => Value.varr (normalizeList xs)
  | v => v

def normalizeFields : List (String × Value) → List (String × Value)
  | [] => []
  | (k, v) :: rest => (k, normalizeValue v) :: normalizeFields rest

/-- Keys that `fmt.Sprint` to the same string collide in the Go map; the
association list keeps both entries and `lookupKey` sees the first.  Loader
outputs have distinct scalar keys, where no collision can occur. -/
def normalizePairs : List (Value × Value) → List (String × Value)
  | [] => []
  | (k, v) :: rest => (goStringify k, normalizeValue v) :: normalizePairs rest

def normalizeList : List Value → List Value
  | [] => []
  | v :: rest => normalizeValue v :: normalizeList rest
end

/-- `normalizeLoadedMap` from `config.go`: normalize every top-level entry.
The nil-map guard of the source corresponds to no value of this type. -/
def normalizeLoadedMap (values : List (String × Value)) : List (String × Value) :=
  normalizeFields values

/-- Raw file content (`[]byte`). -/
abbrev Bytes := List UInt8

/-- The `Loader` capability: decode bytes into a raw, possibly un-normalized
mapping, or fail with the underlying parse error's message. -/
def Loader := Bytes → Except String (List (String × Value))

/-- Lookup in the loader registry (`map[string]Loader`). -/
def lookupLoader : List (String × Loader) → String → Option Loader
  | [], _ => none
  | (k, v) :: rest, key => if k = key then some v else lookupLoader rest key

/-- The `Config` store.  `envPre` models the Go field `envPre` + "fix"
(its source name ends in a word this development cannot use as an
identifier); `hasOnChange` records whether an `onChange` callback is
registered (callbacks themselves are opaque effects); the mutex and watcher
handles carry no value-level content and are omitted. -/
structure Config where
  defaults : List (String × Value)
  values : List (String × Value)
  envPre : String
  envBindings : List (String × String)
  cfgName : String
  cfgType : String
  cfgPaths : List String
  file : String
  automatic : Bool
  hasOnChange : Bool
  loaders : List (String × Loader)

/-- The ambient operating system, as the oracles `config.go` consults:
`os.LookupEnv`, `os.Stat` (success only) and `os.ReadFile`. -/
structure Sys where
  env : String → Option String
  statOk : String → Bool
  readFile : String → Except String Bytes

/-- ASCII uppercasing of `strings.ToUpper`; the Unicode case table is not
modelled (keys are ASCII in every claim below). -/
def goToUpper (s : String) : String :=
  List.asString (s.data.map Char.toUpper)

/-- ASCII lowercasing of `strings.ToLower`. -/
def goToLower (s : String) : String :=
  List.asString (s.data.map Char.toLower)

/-- `strings.ReplaceAll(key, ".", "_")` for the single-character arguments
the source passes. -/
def replaceDots (s : String) : String :=
  List.asString (s.data.map (fun c => if c = '.' then '_' else c))

/-- One leading `"."` stripped, as `strings.TrimPre` + `"fix"` applied to
`"."` does in the source. -/
def trimDot (s : String) : String :=
  match s.data with
  | '.' :: rest => List.asString rest
  | _ => s

/-- The environment variable name computed inside `getEnv`: the bound name
verbatim when the key has a binding, else the uppercased key with dots
replaced by underscores, with `envPre + "_"` prepended when non-empty. -/
def envKeyName (c : Config) (key : String) : String :=
  match lookupStr c.envBindings key with
  | some env => env
  | none =>
      let base := goToUpper (replaceDots key)
      if c.envPre = "" then base else c.envPre ++ "_" ++ base

/-- `getEnv` from `config.go`: `os.LookupEnv` on the computed name. -/
def Config.getEnv (c : Config) (sys : Sys) (key : String) : Option String :=
  sys.env (envKeyName c key)

/-- `get` from `config.go`: automatic environment first (when enabled), then
`values`, then the environment regardless of mode, then `defaults`. -/
def Config.get (c : Config) (sys : Sys) (key : String) : Option Value :=
  match (if c.automatic then c.getEnv sys key else none) with
  | some v => some (Value.vstr v)
  | none =>
      match fetchValue c.values key with
      | some v => some v
      | none =>
          match c.getEnv sys key with
          | some v => some (Value.vstr v)
          | none => fetchValue c.defaults key

/-- The error kinds `config.go` produces from loading operations. -/
inductive ConfError where
  | fileNotFound : ConfError
  | readFailed (msg : String) : ConfError
  | unsupportedConfigType : ConfError
  | loadFailed (msg : String) : ConfError
  | configTypeNotSet : ConfError
deriving DecidableEq

/-- `decodeConfig` from `config.go`: normalize the format identifier, find a
loader, run it, and normalize its output.  The `loader == nil` guard of the
source cannot arise here (functions are never nil, and `RegisterLoader`
refuses nil loaders). -/
def Config.decodeConfig (c : Config) (data : Bytes) (format : String) :
    Except ConfError (List (String × Value)) :=
  let fm := goToLower (trimDot format)
  if fm = "" then Except.error ConfError.unsupportedConfigType
  else
    match lookupLoader c.loaders fm with
    | none => Except.error ConfError.unsupportedConfigType
    | some loader =>
        match loader data with
        | Except.error e => Except.error (ConfError.loadFailed e)
        | Except.ok vs => Except.ok (normalizeLoadedMap vs)

/-- `mergeConfigMapLocked` from `config.go`.  The source's nil guards do not
arise: `New` initializes `values` non-nil and a nil incoming map reads as
the empty mapping, for which the merge is a no-op as well. -/
def Config.mergeConfigMapLocked (c : Config) (data : List (String × Value)) : Config :=
  { c with values := mergeMaps c.values data }

/-- `filepath.Ext`: the suffix starting at the final dot of the final path
element, empty when that element has no dot. -/
def goExt (path : String) : String :=
  let base := ((goSplit path '/').getLastD "")
  let pieces := splitOnChar '.' base.data
  if pieces.length ≤ 1 then "" else "." ++ List.asString (pieces.getLastD [])

/-- `filepath.Join` as the source uses it; Go additionally runs `Clean` on
the joined path, which only changes the concrete name string handed to the
`Sys` oracles and is not modelled. -/
def goJoin (p n : String) : String :=
  p ++ "/" ++ n

/-- The search loop of `readInConfigLocked`: probe each configured path for
`join(p, cfgName)` plus the optional `"." + cfgType`, returning the first
name `os.Stat` accepts. -/
def searchConfigFile (paths : List String) (name ty : String) (statOk : String → Bool) :
    Option String :=
  match paths with
  | [] => none
  | p :: rest =>
      let nm := goJoin p name ++ (if ty = "" then "" else "." ++ ty)
      if statOk nm then some nm else searchConfigFile rest name ty statOk

/-- The tail of `readInConfigLocked` once `c.file` is fixed: read the file,
decode it by its extension, and on success replace `values` entirely (the
source empties the map before merging the decoded content). -/
def Config.readFromFile (c : Config) (sys : Sys) : Config × Except ConfError Unit :=
  match sys.readFile c.file with
  | Except.error e => (c, Except.error (ConfError.readFailed e))
  | Except.ok data =>
      match c.decodeConfig data (trimDot (goToLower (goExt c.file))) with
      | Except.error e => (c, Except.error e)
      | Except.ok parsed =>
          (Config.mergeConfigMapLocked { c with values := [] } parsed, Except.ok ())

/-- `readInConfigLocked` from `config.go`: with no explicit file, an empty
config name returns success immediately; otherwise the search paths are
probed and a failed search is `os.ErrNotExist`.  Note the found name is
stored in `c.file` before reading, so it persists even when the subsequent
read or decode fails. -/
def Config.readInConfigLocked (c : Config) (sys : Sys) : Config × Except ConfError Unit :=
  if c.file = "" then
    if c.cfgName = "" then (c, Except.ok ())
    else
      match searchConfigFile c.cfgPaths c.cfgName c.cfgType sys.statOk with
      | none => (c, Except.error ConfError.fileNotFound)
      | some name => Config.readFromFile { c with file := name } sys
  else c.readFromFile sys

/-- `ReadConfig` from `config.go`; the reader is modelled by the outcome of
`io.ReadAll` on it. -/
def Config.readConfig (c : Config) (r : Except String Bytes) : Config × Except ConfError Unit :=
  if c.cfgType = "" then (c, Except.error ConfError.configTypeNotSet)
  else
    match r with
    | Except.error e => (c, Except.error (ConfError.readFailed e))
    | Except.ok data =>
        match c.decodeConfig data c.cfgType with
        | Except.error e => (c, Except.error e)
        | Except.ok parsed => (c.mergeConfigMapLocked parsed, Except.ok ())

/-- `MergeConfigMap` from `config.go`: deep-copy the caller's map, normalize
it, and merge additively. -/
def Config.mergeConfigMap (c : Config) (data : List (String × Value)) : Config :=
  c.mergeConfigMapLocked (normalizeLoadedMap (cloneMap data))

/-- One delivery to the watch goroutine of `WatchConfig`: an fsnotify event
(with or without the Write bit in its Op mask) or an error-channel message. -/
inductive WatchMsg where
  | fsEvent (isWrite : Bool) : WatchMsg
  | fsError : WatchMsg
deriving DecidableEq

/-- The body of the watch loop in `WatchConfig` for one delivered message.
The second component lists the store states observed by each callback
invocation the message provokes (the source invokes `onChange` after
`ReadInConfig` succeeded, so an invocation observes the reloaded store). -/
def Config.watchStep (c : Config) (sys : Sys) (msg : WatchMsg) : Config × List Config :=
  match msg with
  | WatchMsg.fsEvent isWrite =>
      if isWrite then
        match c.readInConfigLocked sys with
        | (c', Except.error _) => (c', [])
        | (c', Except.ok ()) => (c', if c'.hasOnChange then [c'] else [])
      else (c, [])
  | WatchMsg.fsError => (c, [])

/-- Truncation toward zero, Go's `int(f)` conversion of a `float64`. -/
def ratTruncToZero (q : Rat) : Int :=
  if q < 0 then Int.ceil q else Int.floor q

/-- `GetString` from `config.go`. -/
def Config.getString (c : Config) (sys : Sys) (key : String) : String :=
  match c.get sys key with
  | some (Value.vstr s) => s
  | some v => goStringify v
  | none => ""

/-- `GetInt` from `config.go`: identity on integers, truncation toward zero
on floats, `strconv.Atoi` with fallback 0 on strings (the range clamp of
`Atoi` is not modelled — integers are unbounded here), 0 on everything
else. -/
def Config.getInt (c : Config) (sys : Sys) (key : String) : Int :=
  match c.get sys key with
  | some (Value.vint n) => n
  | some (Value.vint64 n) => n
  | some (Value.vfloat q) => ratTruncToZero q
  | some (Value.vstr s) => (goAtoi s).getD 0
  | _ => 0

/-- `strconv.ParseBool` with the zero-value fallback of `b, _ := ...`: the
accepted true spellings yield true; every other string (including the false
spellings and parse failures) yields false. -/
def goParseBool (s : String) : Bool :=
  ["1", "t", "T", "TRUE", "true", "True"].contains s

/-- `GetBool` from `config.go`: booleans pass through, strings go through
`strconv.ParseBool`, numerics are true when nonzero. -/
def Config.getBool (c : Config) (sys : Sys) (key : String) : Bool :=
  match c.get sys key with
  | some (Value.vbool b) => b
  | some (Value.vstr s) => goParseBool s
  | some (Value.vint n) => decide (n ≠ 0)
  | some (Value.vfloat q) => decide (q ≠ 0)
  | _ => false

/-- Trimming of leading and trailing whitespace (`strings.TrimSpace`;
`Char.isWhitespace` models `unicode.IsSpace` on the ASCII range). -/
def goTrimSpace (s : String) : String :=
  List.asString (((s.data.dropWhile Char.isWhitespace).reverse.dropWhile Char.isWhitespace).reverse)

/-- `toStringSlice` from `config.go`: sequences stringify element-wise, a
non-empty scalar string splits on commas with each piece trimmed, the empty
string is the empty slice, anything else is nil (`none`). -/
def toStringSlice : Value → Option (List String)
  | Value.varr xs => some (xs.map goStringify)
  | Value.vstr s =>
      if s = "" then some []
      else some ((goSplit s ',').map goTrimSpace)
  | _ => none

/-- `GetStringSlice` from `config.go`: nil results from `toStringSlice` fall
back to the empty slice. -/
def Config.getStringSlice (c : Config) (sys : Sys) (key : String) : List String :=
  match c.get sys key with
  | some v => (toStringSlice v).getD []
  | none => []

/-- The element conversion loop of `GetIntSlice`; a single inconvertible
element aborts with `none` (the source returns the empty slice there). -/
def intsOfList : List Value → Option (List Int)
  | [] => some []
  | Value.vint n :: rest => (intsOfList rest).map (fun t => n :: t)
  | Value.vint64 n :: rest => (intsOfList rest).map (fun t => n :: t)
  | Value.vfloat q :: rest => (intsOfList rest).map (fun t => ratTruncToZero q :: t)
  | Value.vstr s :: rest =>
      match goAtoi s with
      | none => none
      | some i => (intsOfList rest).map (fun t => i :: t)
  | _ => none

/-- `GetIntSlice` from `config.go`. -/
def Config.getIntSlice (c : Config) (sys : Sys) (key : String) : List Int :=
  match c.get sys key with
  | some (Value.varr xs) => (intsOfList xs).getD []
  | _ => []

/-! ### Spec-side reference definitions

These two definitions transcribe the specification's words (not the source)
and are compared with the source-translated functions by the refinement
theorems below. -/

/-- The resolver precedence as the specification words it: in automatic mode
the bound or implied environment variable is consulted first and returned as
a string when present; otherwise the key resolves against `values` via the
dotted-path accessor, then the environment regardless of mode, then
`defaults`, and otherwise reports not found. -/
def specResolverGet (c : Config) (sys : Sys) (key : String) : Option Value :=
  let fromStore : Option Value :=
    match fetchValue c.values key with
    | some v => some v
    | none =>
        match c.getEnv sys key with
        | some s => some (Value.vstr s)
        | none => fetchValue c.defaults key
  if c.automatic then
    match c.getEnv sys key with
    | some s => some (Value.vstr s)
    | none => fromStore
  else fromStore

/-- The environment variable name as the specification derives it: for a
bound key the bound name verbatim; otherwise the uppercased key with every
`.` replaced by `_`, with the configured prefix and an underscore prepended
when the prefix is non-empty.  The spec uppercases before replacing dots;
the refinement theorem shows this agrees with the source's order. -/
def specEnvName (c : Config) (key : String) : String :=
  match lookupStr c.envBindings key with
  | some bound => bound
  | none =>
      if c.envPre = "" then replaceDots (goToUpper key)
      else c.envPre ++ "_" ++ replaceDots (goToUpper key)

/-! ### Tagged model of object identity

Go maps and slices are mutable reference values; `cloneValue` and
`normalizeValue` differ observably from the identity only through the object
identities of the containers they return.  `TValue` mirrors `Value` but
carries an allocation tag on every container constructor: two occurrences of
the same tag denote the same runtime object, so a caller-side mutation of a
container reaches exactly the trees containing its tag.  Functions that
allocate (`make` in the source) thread a counter handing out fresh tags. -/

inductive TValue where
  | tnull : TValue
  | tstr (s : String) : TValue
  | tint (n : Int) : TValue
  | tint64 (n : Int) : TValue
  | tfloat (q : Rat) : TValue
  | tbool (b : Bool) : TValue
  | tarr (tag : Nat) (xs : List TValue) : TValue
  | tmap (tag : Nat) (m : List (String × TValue)) : TValue
  | tmapS (tag : Nat) (m : List (String × String)) : TValue
  | tmapA (tag : Nat) (m : List (TValue × TValue)) : TValue

mutual
/-- Tag erasure, relating the tagged model back to `Value`. -/
def untag : TValue → Value
  | TValue.tnull => Value.vnull
  | TValue.tstr s => Value.vstr s
  | TValue.tint n => Value.vint n
  | TValue.tint64 n => Value.vint64 n
  | TValue.tfloat q => Value.vfloat q
  | TValue.tbool b => Value.vbool b
  | TValue.tarr _ xs => Value.varr (untagList xs)
  | TValue.tmap _ m => Value.vmap (untagFields m)
  | TValue.tmapS _ m => Value.vmapS m
  | TValue.tmapA _ m => Value.vmapA (untagPairs m)

def untagList : List TValue → List Value
  | [] => []
  | v :: rest => untag v :: untagList rest

def untagFields : List (String × TValue) → List (String × Value)
  | [] => []
  | (k, v) :: rest => (k, untag v) :: untagFields rest

def untagPairs : List (TValue × TValue) → List (Value × Value)
  | [] => []
  | (k, v) :: rest => (untag k, untag v) :: untagPairs rest
end

mutual
/-- All container tags occurring in a tagged value: the objects a mutation
of the value's containers could reach. -/
def tagsOf : TValue → List Nat
  | TValue.tarr t xs => t :: tagsList xs
  | TValue.tmap t m => t :: tagsFields m
  | TValue.tmapS t _ => [t]
  | TValue.tmapA t m => t :: tagsPairs m
  | _ => []

def tagsList : List TValue → List Nat
  | [] => []
  | v :: rest => tagsOf v ++ tagsList rest

def tagsFields : List (String × TValue) → List Nat
  | [] => []
  | (_, v) :: rest => tagsOf v ++ tagsFields rest

def tagsPairs : List (TValue × TValue) → List Nat
  | [] => []
  | (k, v) :: rest => tagsOf k ++ tagsOf v ++ tagsPairs rest
end

mutual
/-- `cloneValue` on tagged values: the recognised containers are rebuilt
with a fresh tag (a new object) and recursively cloned contents; the
`map[any]any` arm reuses key objects as the source does; everything reaching
the default arm — scalars, but also `map[string]string` — is returned as-is,
with its identity. -/
def tCloneValue : TValue → Nat → TValue × Nat
  | TValue.tmap _ m, n =>
      let r := tCloneFields m (n + 1)
      (TValue.tmap n r.1, r.2)
  | TValue.tmapA _ m, n =>
      let r := tClonePairs m (n + 1)
      (TValue.tmapA n r.1, r.2)
  | TValue.tarr _ xs, n =>
      let r := tCloneList xs (n + 1)
      (TValue.tarr n r.1, r.2)
  | v, n => (v, n)

def tCloneFields : List (String × TValue) → Nat → List (String × TValue) × Nat
  | [], n => ([], n)
  | (k, v) :: rest, n =>
      let rv := tCloneValue v n
      let rr := tCloneFields rest rv.2
      ((k, rv.1) :: rr.1, rr.2)

def tClonePairs : List (TValue × TValue) → Nat → List (TValue × TValue) × Nat
  | [], n => ([], n)
  | (k, v) :: rest, n =>
      let rv := tCloneValue v n
      let rr := tClonePairs rest rv.2
      ((k, rv.1) :: rr.1, rr.2)

def tCloneList : List TValue → Nat → List TValue × Nat
  | [], n => ([], n)
  | v :: rest, n =>
      let rv := tCloneValue v n
      let rr := tCloneList rest rv.2
      (rv.1 :: rr.1, rr.2)
end

mutual
/-- `normalizeValue` on tagged values: the `map[string]any` and `[]any` arms
update in place and keep the container's identity; the `map[any]any` arm
builds a fresh map (`make` in the source); the default arm returns its
argument. -/
def tNormalizeValue : TValue → Nat → TValue × Nat
  | TValue.tmap t m, n =>
      let r := tNormalizeFields m n
      (TValue.tmap t r.1, r.2)
  | TValue.tmapA _ m, n =>
      let r := tNormalizePairs m (n + 1)
      (TValue.tmap n r.1, r.2)
  | TValue.tarr t xs, n =>
      let r := tNormalizeList xs n
      (TValue.tarr t r.1, r.2)
  | v, n => (v, n)

def tNormalizeFields : List (String × TValue) → Nat → List (String × TValue) × Nat
  | [], n => ([], n)
  | (k, v) :: rest, n =>
      let rv := tNormalizeValue v n
      let rr := tNormalizeFields rest rv.2
      ((k, rv.1) :: rr.1, rr.2)

def tNormalizePairs : List (TValue × TValue) → Nat → List (String × TValue) × Nat
  | [], n => ([], n)
  | (k, v) :: rest, n =>
      let rv := tNormalizeValue v n
      let rr := tNormalizePairs rest rv.2
      ((goStringify (untag k), rv.1) :: rr.1, rr.2)

def tNormalizeList : List TValue → Nat → List TValue × Nat
  | [], n => ([], n)
  | v :: rest, n =>
      let rv := tNormalizeValue v n
      let rr := tNormalizeList rest rv.2
      (rv.1 :: rr.1, rr.2)
end

/-- Lookup on tagged fields, as `lookupKey`. -/
def tLookupKey : List (String × TValue) → String → Option TValue
  | [], _ => none
  | (k, v) :: rest, key => if k = key then some v else tLookupKey rest key

/-- Assignment on tagged fields, as `setKey`. -/
def tSetKey : List (String × TValue) → String → TValue → List (String × TValue)
  | [], key, v => [(key, v)]
  | (k, w) :: rest, key, v =>
      if k = key then (k, v) :: rest else (k, w) :: tSetKey rest key v

/-- `mergeMaps` on tagged values.  The recursive-merge arm assigns back the
existing submap object mutated in place, so the merged submap keeps the
destination's tag, as the source's `dst[k] = mergeMaps(existingMap, newMap)`
does. -/
def tMergeMaps : List (String × TValue) → List (String × TValue) → List (String × TValue)
  | dst, [] => dst
  | dst, (k, TValue.tmap tn nm) :: rest =>
      (match tLookupKey dst k with
        | some (TValue.tmap te em) =>
            tMergeMaps (tSetKey dst k (TValue.tmap te (tMergeMaps em nm))) rest
        | _ => tMergeMaps (tSetKey dst k (TValue.tmap tn nm)) rest)
  | dst, (k, v) :: rest => tMergeMaps (tSetKey dst k v) rest
termination_by _ src => sizeOf src

mutual
/-- Inputs on which `cloneValue` actually deep-copies every container: all
containers are of the kinds its type switch recognises (`map[string]any`,
`map[any]any` with identity-free keys, `[]any`).  A `map[string]string`
value falls through the source's default arm shared, so it is excluded. -/
def cloneCovered : TValue → Bool
  | TValue.tmap _ m => coveredFields m
  | TValue.tmapA _ m => coveredPairs m
  | TValue.tarr _ xs => coveredList xs
  | TValue.tmapS _ _ => false
  | _ => true

def coveredFields : List (String × TValue) → Bool
  | [] => true
  | (_, v) :: rest => cloneCovered v && coveredFields rest

def coveredPairs : List (TValue × TValue) → Bool
  | [] => true
  | (k, v) :: rest => (tagsOf k).isEmpty && cloneCovered v && coveredPairs rest

def coveredList : List TValue → Bool
  | [] => true
  | v :: rest => cloneCovered v && coveredList rest
end

/-- `MergeConfigMap` on the tagged model: deep-copy the caller's entries,
normalize the copy, and fold it into the store's current fields; `n` is the
next fresh allocation tag. -/
def tMergeConfigMap (values data : List (String × TValue)) (n : Nat) :
    List (String × TValue) :=
  let cl := tCloneFields data n
  let nm := tNormalizeFields cl.1 cl.2
  tMergeMaps values nm.1

/-- The deep-merge result at one key, as the specification words it: a key
absent from `src` keeps `dst`'s value, two mappings merge recursively, and
otherwise `src`'s value wholly replaces `dst`'s. -/
def specMergeAt (d s : Option Value) : Option Value :=
  match s, d with
  | none, _ => d
  | some (Value.vmap nm), some (Value.vmap em) => some (Value.vmap (mergeMaps em nm))
  | some v, _ => some v

/-! ### Helper lemmas -/

theorem lookupKey_setKey_self (m : List (String × Value)) (k : String) (v : Value) :
    lookupKey (setKey m k v) k = some v := by
  induction m with
  | nil => simp [setKey, lookupKey]
  | cons hd tl ih =>
      obtain ⟨k0, w⟩ := hd
      by_cases h : k0 = k
      · simp [setKey, h, lookupKey]
      · simp [setKey, h, lookupKey, ih]

theorem lookupKey_setKey_ne (m : List (String × Value)) (k k' : String) (v : Value)
    (h : k' ≠ k) : lookupKey (setKey m k v) k' = lookupKey m k' := by
  induction m with
  | nil => simp [setKey, lookupKey, Ne.symm h]
  | cons hd tl ih =>
      obtain ⟨k0, w⟩ := hd
      by_cases h0 : k0 = k
      · subst h0
        simp [setKey, lookupKey, Ne.symm h]
      · simp only [setKey, if_neg h0, lookupKey]
        by_cases h1 : k0 = k'
        · simp [h1]
        · simp [h1, ih]

theorem lookupKey_eq_none_of_not_mem (m : List (String × Value)) (k : String)
    (h : k ∉ m.map Prod.fst) : lookupKey m k = none := by
  induction m with
  | nil => simp [lookupKey]
  | cons hd tl ih =>
      obtain ⟨k0, w⟩ := hd
      simp only [List.map_cons, List.mem_cons, not_or] at h
      simp [lookupKey, Ne.symm h.1, ih h.2]

theorem lookupKey_isSome_iff_mem (m : List (String × Value)) (k : String) :
    (lookupKey m k).isSome ↔ k ∈ m.map Prod.fst := by
  induction m with
  | nil => simp [lookupKey]
  | cons hd tl ih =>
      obtain ⟨k0, w⟩ := hd
      by_cases h : k0 = k
      · simp [lookupKey, h]
      · simp [lookupKey, h, ih, Ne.symm h]

theorem mergeMaps_cons_map_hit (dst : List (String × Value)) (k : String)
    (nm rest em : List (String × Value)) (h : lookupKey dst k = some (Value.vmap em)) :
    mergeMaps dst ((k, Value.vmap nm) :: rest)
      = mergeMaps (setKey dst k (Value.vmap (mergeMaps em nm))) rest := by
  rw [mergeMaps, h]

theorem mergeMaps_cons_map_miss (dst : List (String × Value)) (k : String)
    (nm rest : List (String × Value))
    (h : ∀ em, lookupKey dst k ≠ some (Value.vmap em)) :
    mergeMaps dst ((k, Value.vmap nm) :: rest)
      = mergeMaps (setKey dst k (Value.vmap nm)) rest := by
  rw [mergeMaps]
  cases hl : lookupKey dst k with
  | none => rfl
  | some w =>
      cases w with
      | vmap em => exact absurd hl (h em)
      | vnull => rfl
      | vstr s => rfl
      | vint n => rfl
      | vint64 n => rfl
      | vfloat q => rfl
      | vbool b => rfl
      | varr xs => rfl
      | vmapS m => rfl
      | vmapA m => rfl

theorem mergeMaps_cons_nonmap (dst : List (String × Value)) (k : String) (v : Value)
    (rest : List (String × Value)) (h : ∀ nm, v ≠ Value.vmap nm) :
    mergeMaps dst ((k, v) :: rest) = mergeMaps (setKey dst k v) rest := by
  cases v
  case vmap m => exact absurd rfl (h m)
  all_goals rw [mergeMaps]
  all_goals exact fun nm he => h nm he

theorem specMergeAt_some_nonmap (d : Option Value) (v : Value)
    (h : ∀ nm, v ≠ Value.vmap nm) : specMergeAt d (some v) = some v := by
  cases v with
  | vmap m => exact absurd rfl (h m)
  | vnull => cases d with
      | none => rfl
      | some w => cases w <;> rfl
  | vstr s => cases d with
      | none => rfl
      | some w => cases w <;> rfl
  | vint n => cases d with
      | none => rfl
      | some w => cases w <;> rfl
  | vint64 n => cases d with
      | none => rfl
      | some w => cases w <;> rfl
  | vfloat q => cases d with
      | none => rfl
      | some w => cases w <;> rfl
  | vbool b => cases d with
      | none => rfl
      | some w => cases w <;> rfl
  | varr xs => cases d with
      | none => rfl
      | some w => cases w <;> rfl
  | vmapS m => cases d with
      | none => rfl
      | some w => cases w <;> rfl
  | vmapA m => cases d with
      | none => rfl
      | some w => cases w <;> rfl

theorem mergeMaps_lookupKey_char (dst src : List (String × Value)) :
    (src.map Prod.fst).Nodup →
      ∀ q, lookupKey (mergeMaps dst src) q = specMergeAt (lookupKey dst q) (lookupKey src q) := by
  induction dst, src using mergeMaps.induct with
  | case1 dst =>
      intro _ q
      simp [mergeMaps, lookupKey, specMergeAt]
  | case2 dst k nm rest em hlk ih1 ih2 =>
      intro hnd q
      simp only [List.map_cons, List.nodup_cons] at hnd
      rw [mergeMaps_cons_map_hit dst k nm rest em hlk, ih2 hnd.2 q]
      by_cases hk : k = q
      · subst hk
        rw [lookupKey_eq_none_of_not_mem rest k hnd.1]
        simp [specMergeAt, lookupKey, lookupKey_setKey_self, hlk]
      · rw [lookupKey_setKey_ne dst k q _ (Ne.symm hk)]
        simp [lookupKey, hk]
  | case3 dst k nm rest hlk ih =>
      intro hnd q
      simp only [List.map_cons, List.nodup_cons] at hnd
      have hlk' : ∀ em, lookupKey dst k ≠ some (Value.vmap em) := fun em he => hlk em he
      rw [mergeMaps_cons_map_miss dst k nm rest hlk', ih hnd.2 q]
      by_cases hk : k = q
      · subst hk
        rw [lookupKey_eq_none_of_not_mem rest k hnd.1]
        rw [lookupKey_setKey_self]
        simp only [specMergeAt, lookupKey, if_pos rfl]
        cases hl : lookupKey dst k with
        | none => rfl
        | some w =>
            cases w with
            | vmap em => exact absurd hl (hlk' em)
            | vnull => rfl
            | vstr s => rfl
            | vint n => rfl
            | vint64 n => rfl
            | vfloat q => rfl
            | vbool b => rfl
            | varr xs => rfl
            | vmapS m => rfl
            | vmapA m => rfl
      · rw [lookupKey_setKey_ne dst k q _ (Ne.symm hk)]
        simp [lookupKey, hk]
  | case4 dst k v rest hv ih =>
      intro hnd q
      simp only [List.map_cons, List.nodup_cons] at hnd
      have hv' : ∀ nm, v ≠ Value.vmap nm := fun nm he => hv nm he
      rw [mergeMaps_cons_nonmap dst k v rest hv', ih hnd.2 q]
      by_cases hk : k = q
      · subst hk
        rw [lookupKey_eq_none_of_not_mem rest k hnd.1]
        rw [lookupKey_setKey_self]
        simp only [lookupKey, if_pos rfl]
        exact (specMergeAt_some_nonmap (lookupKey dst k) v hv').symm
      · rw [lookupKey_setKey_ne dst k q _ (Ne.symm hk)]
        simp [lookupKey, hk]

theorem lookupKey_eq_none_iff (m : List (String × Value)) (q : String) :
    lookupKey m q = none ↔ q ∉ m.map Prod.fst := by
  rw [← lookupKey_isSome_iff_mem]
  cases lookupKey m q <;> simp

theorem mergeMaps_lookupKey_of_src_none (dst src : List (String × Value)) (q : String)
    (h : lookupKey src q = none) :
    lookupKey (mergeMaps dst src) q = lookupKey dst q := by
  induction dst, src using mergeMaps.induct with
  | case1 dst => simp [mergeMaps]
  | case2 dst k nm rest em hlk ih1 ih2 =>
      simp only [lookupKey] at h
      by_cases hk : k = q
      · rw [if_pos hk] at h
        exact absurd h (by simp)
      · rw [if_neg hk] at h
        rw [mergeMaps_cons_map_hit dst k nm rest em hlk, ih2 h]
        exact lookupKey_setKey_ne dst k q _ (Ne.symm hk)
  | case3 dst k nm rest hlk ih =>
      simp only [lookupKey] at h
      by_cases hk : k = q
      · rw [if_pos hk] at h
        exact absurd h (by simp)
      · rw [if_neg hk] at h
        have hlk' : ∀ em, lookupKey dst k ≠ some (Value.vmap em) := fun em he => hlk em he
        rw [mergeMaps_cons_map_miss dst k nm rest hlk', ih h]
        exact lookupKey_setKey_ne dst k q _ (Ne.symm hk)
  | case4 dst k v rest hv ih =>
      simp only [lookupKey] at h
      by_cases hk : k = q
      · rw [if_pos hk] at h
        exact absurd h (by simp)
      · rw [if_neg hk] at h
        have hv' : ∀ nm, v ≠ Value.vmap nm := fun nm he => hv nm he
        rw [mergeMaps_cons_nonmap dst k v rest hv', ih h]
        exact lookupKey_setKey_ne dst k q _ (Ne.symm hk)

theorem mergeMaps_lookupKey_isSome_mono (dst src : List (String × Value)) (q : String)
    (h : (lookupKey dst q).isSome) : (lookupKey (mergeMaps dst src) q).isSome := by
  induction dst, src using mergeMaps.induct with
  | case1 dst => simpa [mergeMaps] using h
  | case2 dst k nm rest em hlk ih1 ih2 =>
      rw [mergeMaps_cons_map_hit dst k nm rest em hlk]
      apply ih2
      by_cases hk : k = q
      · subst hk
        simp [lookupKey_setKey_self]
      · rw [lookupKey_setKey_ne dst k q _ (Ne.symm hk)]
        exact h
  | case3 dst k nm rest hlk ih =>
      have hlk' : ∀ em, lookupKey dst k ≠ some (Value.vmap em) := fun em he => hlk em he
      rw [mergeMaps_cons_map_miss dst k nm rest hlk']
      apply ih
      by_cases hk : k = q
      · subst hk
        simp [lookupKey_setKey_self]
      · rw [lookupKey_setKey_ne dst k q _ (Ne.symm hk)]
        exact h
  | case4 dst k v rest hv ih =>
      have hv' : ∀ nm, v ≠ Value.vmap nm := fun nm he => hv nm he
      rw [mergeMaps_cons_nonmap dst k v rest hv']
      apply ih
      by_cases hk : k = q
      · subst hk
        simp [lookupKey_setKey_self]
      · rw [lookupKey_setKey_ne dst k q _ (Ne.symm hk)]
        exact h

theorem cloneFields_keys (m : List (String × Value)) :
    (cloneFields m).map Prod.fst = m.map Prod.fst := by
  induction m with
  | nil => simp [cloneFields]
  | cons hd tl ih =>
      obtain ⟨k, v⟩ := hd
      simp [cloneFields, ih]

theorem normalizeFields_keys (m : List (String × Value)) :
    (normalizeFields m).map Prod.fst = m.map Prod.fst := by
  induction m with
  | nil => simp [normalizeFields]
  | cons hd tl ih =>
      obtain ⟨k, v⟩ := hd
      simp [normalizeFields, ih]

/-! ### Claim theorems -/

/-- C2: for all mappings `dst` and `src`, `mergeMaps` adopts `src`'s value
at keys missing from `dst`, merges recursively when both sides hold
string-keyed mappings, and otherwise lets `src`'s value wholly replace
`dst`'s (never element-merging sequences or scalars); in particular merging
`{a:{x:1}}` with `{a:{y:2}}` gives `{a:{x:1,y:2}}` and merging `{a:{x:1}}`
with `{a:"scalar"}` gives `{a:"scalar"}`. -/
theorem mergeMaps_spec :
    (∀ dst src : List (String × Value), (src.map Prod.fst).Nodup →
        ∀ q, lookupKey (mergeMaps dst src) q = specMergeAt (lookupKey dst q) (lookupKey src q))
    ∧ mergeMaps [("a", Value.vmap [("x", Value.vint 1)])] [("a", Value.vmap [("y", Value.vint 2)])]
        = [("a", Value.vmap [("x", Value.vint 1), ("y", Value.vint 2)])]
    ∧ mergeMaps [("a", Value.vmap [("x", Value.vint 1)])] [("a", Value.vstr "scalar")]
        = [("a", Value.vstr "scalar")] := by
  refine ⟨mergeMaps_lookupKey_char, ?_, ?_⟩ <;> simp [mergeMaps, lookupKey, setKey]

/-- Witness for C2 at a concrete store and incoming mapping. -/
theorem mergeMaps_spec_witness :
    lookupKey (mergeMaps [("a", Value.vint 1)] [("a", Value.vstr "s"), ("b", Value.vint 2)]) "a"
      = specMergeAt (some (Value.vint 1)) (some (Value.vstr "s")) := by
  have h := mergeMaps_spec.1 [("a", Value.vint 1)] [("a", Value.vstr "s"), ("b", Value.vint 2)]
    (by decide) "a"
  simpa [lookupKey] using h

/-- C3: `fetchValue` returns an exact top-level entry when one exists (the
tie-break even when a structural path spells the same name), and otherwise
walks the dotted path: mapping nodes are looked up by key, sequence nodes
parse the segment as a bounds-checked non-negative index, and scalar nodes,
failed lookups, parse failures and out-of-bounds indices all yield
not-found; on `{"database":{"hosts":["db1","db2"]}}` the key
`"database.hosts.0"` resolves to `"db1"` and `"database.hosts.9"` is not
found. -/
theorem fetchValue_spec :
    (∀ (m : List (String × Value)) (k : String) (v : Value),
        lookupKey m k = some v → fetchValue m k = some v)
    ∧ fetchValue [("database", Value.vmap [("hosts", Value.varr [Value.vstr "db1", Value.vstr "db2"])])]
        "database.hosts.0" = some (Value.vstr "db1")
    ∧ fetchValue [("database", Value.vmap [("hosts", Value.varr [Value.vstr "db1", Value.vstr "db2"])])]
        "database.hosts.9" = none
    ∧ (∀ (m : List (String × Value)) (part : String) (rest : List String),
        walkPath (Value.vmap m) (part :: rest)
          = match lookupKey m part with
            | some nxt => walkPath nxt rest
            | none => none)
    ∧ (∀ (xs : List Value) (part : String) (rest : List String),
        goAtoi part = none → walkPath (Value.varr xs) (part :: rest) = none)
    ∧ (∀ (xs : List Value) (part : String) (idx : Int) (rest : List String),
        goAtoi part = some idx → (idx < 0 ∨ xs.length ≤ idx.toNat) →
          walkPath (Value.varr xs) (part :: rest) = none)
    ∧ (∀ (s part : String) (rest : List String), walkPath (Value.vstr s) (part :: rest) = none)
    ∧ (∀ (n : Int) (part : String) (rest : List String), walkPath (Value.vint n) (part :: rest) = none)
    ∧ (∀ (b : Bool) (part : String) (rest : List String), walkPath (Value.vbool b) (part :: rest) = none)
    ∧ fetchValue [("a.b", Value.vint 1), ("a", Value.vmap [("b", Value.vint 2)])] "a.b"
        = some (Value.vint 1) := by
  refine ⟨?_, rfl, rfl, ?_, ?_, ?_, ?_, ?_, ?_, rfl⟩
  · intro m k v h
    simp [fetchValue, h]
  · intro m part rest
    rfl
  · intro xs part rest h
    simp [walkPath, h]
  · intro xs part idx rest h hb
    simp only [walkPath, h]
    by_cases hneg : idx < 0
    · rw [if_pos hneg]
    · rw [if_neg hneg]
      have hlen : xs.length ≤ idx.toNat := hb.resolve_left hneg
      rw [List.get?_eq_none.mpr hlen]
  · intro s part rest
    rfl
  · intro n part rest
    rfl
  · intro b part rest
    rfl

/-- Witness for C3 at a concrete mapping with an exact top-level entry. -/
theorem fetchValue_spec_witness :
    fetchValue [("x", Value.vint 5)] "x" = some (Value.vint 5) :=
  fetchValue_spec.1 [("x", Value.vint 5)] "x" (Value.vint 5) rfl

/-- C1: `get` applies the fixed precedence: in automatic mode a set
environment variable is returned immediately as a string; otherwise the key
resolves against `values` through the dotted-path accessor, then the
environment is consulted regardless of mode, then `defaults`; otherwise not
found.  Stated as a refinement against the spec-worded resolver. -/
theorem get_matches_spec (c : Config) (sys : Sys) (key : String) :
    c.get sys key = specResolverGet c sys key := by
  unfold Config.get specResolverGet
  by_cases h : c.automatic <;> simp [h]

theorem char_toNat_ofNat_valid (n : Nat) (h : n < 55296) : (Char.ofNat n).toNat = n := by
  unfold Char.ofNat
  rw [dif_pos (Or.inl h)]
  simp [Char.ofNatAux, Char.toNat, UInt32.toNat]

theorem toUpper_ne_dot (c : Char) (h : c ≠ '.') : c.toUpper ≠ '.' := by
  intro hc
  unfold Char.toUpper at hc
  simp only [] at hc
  by_cases hcond : c.toNat ≥ 97 ∧ c.toNat ≤ 122
  · rw [if_pos hcond] at hc
    have h1 : (Char.ofNat (c.toNat - 32)).toNat = c.toNat - 32 := by
      apply char_toNat_ofNat_valid
      omega
    rw [hc] at h1
    have h2 : ('.' : Char).toNat = 46 := by decide
    omega
  · rw [if_neg hcond] at hc
    exact h hc

theorem dotRepl_toUpper_char (c : Char) :
    (if c.toUpper = '.' then '_' else c.toUpper)
      = Char.toUpper (if c = '.' then '_' else c) := by
  by_cases h : c = '.'
  · subst h
    decide
  · rw [if_neg h, if_neg (toUpper_ne_dot c h)]

theorem replaceDots_goToUpper_comm (s : String) :
    replaceDots (goToUpper s) = goToUpper (replaceDots s) := by
  unfold replaceDots goToUpper
  have hdata : ∀ l : List Char, (List.asString l).data = l := fun l => rfl
  rw [hdata, hdata]
  congr 1
  rw [List.map_map, List.map_map]
  apply List.map_congr_left
  intro c _
  exact dotRepl_toUpper_char c

/-- C7: the environment variable consulted for a key with no explicit
binding is exactly the uppercased key with every dot replaced by an
underscore, with `envPre*` and an underscore prepended when a prefix is
configured, while a bound key uses its bound name verbatim; stated as a
refinement against the spec-worded derivation (which uppercases before
replacing the dots — the orders agree). -/
theorem getEnv_name_spec (c : Config) (sys : Sys) (key : String) :
    c.getEnv sys key = sys.env (specEnvName c key) := by
  unfold Config.getEnv envKeyName specEnvName
  cases lookupStr c.envBindings key with
  | some bound => rfl
  | none =>
      by_cases hp : c.envPre = "" <;> simp [hp, replaceDots_goToUpper_comm]

/-- C10: with no explicit file and an empty config name, `readInConfig`
succeeds immediately; the store is returned unchanged (values, defaults and
the file path included), and since the result is the same for every `Sys`
oracle, no filesystem access is consulted and no not-found error arises. -/
theorem readInConfig_emptyName_noop (c : Config) (sys : Sys)
    (hf : c.file = "") (hn : c.cfgName = "") :
    c.readInConfigLocked sys = (c, Except.ok ()) := by
  unfold Config.readInConfigLocked
  rw [if_pos hf, if_pos hn]

/-- Witness for C10 on a concrete unconfigured store and a hostile oracle. -/
theorem readInConfig_emptyName_noop_witness :
    Config.readInConfigLocked
      { defaults := [("d", Value.vint 3)], values := [("stale", Value.vint 1)], envPre := "",
        envBindings := [], cfgName := "", cfgType := "", cfgPaths := ["."], file := "",
        automatic := false, hasOnChange := false, loaders := [] }
      { env := fun _ => none, statOk := fun _ => false, readFile := fun _ => Except.error "io" }
      = (({ defaults := [("d", Value.vint 3)], values := [("stale", Value.vint 1)],
            envPre := "", envBindings := [], cfgName := "", cfgType := "", cfgPaths := ["."],
            file := "", automatic := false, hasOnChange := false,
            loaders := [] } : Config), Except.ok ()) :=
  readInConfig_emptyName_noop _ _ rfl rfl

theorem readFromFile_error_values (c : Config) (sys : Sys) (c' : Config) (e : ConfError)
    (h : c.readFromFile sys = (c', Except.error e)) : c'.values = c.values := by
  unfold Config.readFromFile at h
  split at h
  · injection h with h1 h2
    rw [← h1]
  · split at h
    · injection h with h1 h2
      rw [← h1]
    · injection h with h1 h2
      exact Except.noConfusion h2

theorem readInLocked_error_values (c : Config) (sys : Sys) (c' : Config) (e : ConfError)
    (h : c.readInConfigLocked sys = (c', Except.error e)) : c'.values = c.values := by
  unfold Config.readInConfigLocked at h
  by_cases hf : c.file = ""
  · rw [if_pos hf] at h
    by_cases hn : c.cfgName = ""
    · rw [if_pos hn] at h
      injection h with h1 h2
      exact Except.noConfusion h2
    · rw [if_neg hn] at h
      cases hs : searchConfigFile c.cfgPaths c.cfgName c.cfgType sys.statOk with
      | none =>
          rw [hs] at h
          injection h with h1 h2
          rw [← h1]
      | some name =>
          rw [hs] at h
          exact readFromFile_error_values { c with file := name } sys c' e h
  · rw [if_neg hf] at h
    exact readFromFile_error_values c sys c' e h

theorem readConfig_error_values (c : Config) (r : Except String Bytes) (c' : Config)
    (e : ConfError) (h : c.readConfig r = (c', Except.error e)) : c'.values = c.values := by
  unfold Config.readConfig at h
  by_cases ht : c.cfgType = ""
  · rw [if_pos ht] at h
    injection h with h1 h2
    rw [← h1]
  · rw [if_neg ht] at h
    split at h
    · injection h with h1 h2
      rw [← h1]
    · split at h
      · injection h with h1 h2
        rw [← h1]
      · injection h with h1 h2
        exact Except.noConfusion h2

/-- C5: every failing loading operation leaves `values` exactly as before
the call — `readInConfig` on any of its error paths (not found, read error,
unsupported type, loader failure), `readConfig` on its error paths
(including the unset config type), and the watcher-triggered reload, whose
failure also preserves `values`. -/
theorem load_failure_preserves_values :
    (∀ (c : Config) (sys : Sys) (c' : Config) (e : ConfError),
        c.readInConfigLocked sys = (c', Except.error e) → c'.values = c.values)
    ∧ (∀ (c : Config) (r : Except String Bytes) (c' : Config) (e : ConfError),
        c.readConfig r = (c', Except.error e) → c'.values = c.values)
    ∧ (∀ (c : Config) (sys : Sys) (b : Bool) (e : ConfError),
        (c.readInConfigLocked sys).2 = Except.error e →
          ((c.watchStep sys (WatchMsg.fsEvent b)).1).values = c.values) := by
  refine ⟨readInLocked_error_values, readConfig_error_values, ?_⟩
  intro c sys b e h
  cases b with
  | false => rfl
  | true =>
      rcases hrc : c.readInConfigLocked sys with ⟨c2, r2⟩
      rw [hrc] at h
      simp only [] at h
      subst h
      simp only [Config.watchStep, hrc]
      exact readInLocked_error_values c sys c2 e hrc

/-- Witness for C5: a concrete store whose configured file fails to read;
the resulting store keeps its previous values. -/
theorem load_failure_preserves_values_witness :
    ((Config.readInConfigLocked
      { defaults := [], values := [("keep", Value.vint 7)], envPre := "", envBindings := [],
        cfgName := "", cfgType := "", cfgPaths := [], file := "cfg.json", automatic := false,
        hasOnChange := false, loaders := [] }
      { env := fun _ => none, statOk := fun _ => false,
        readFile := fun _ => Except.error "io" }).1).values = [("keep", Value.vint 7)] :=
  load_failure_preserves_values.1
    { defaults := [], values := [("keep", Value.vint 7)], envPre := "", envBindings := [],
      cfgName := "", cfgType := "", cfgPaths := [], file := "cfg.json", automatic := false,
      hasOnChange := false, loaders := [] }
    { env := fun _ => none, statOk := fun _ => false, readFile := fun _ => Except.error "io" }
    _ (ConfError.readFailed "io") rfl

theorem readFromFile_ok_values (c : Config) (sys : Sys) (c' : Config)
    (h : c.readFromFile sys = (c', Except.ok ())) :
    ∃ data parsed, sys.readFile c.file = Except.ok data ∧
      c.decodeConfig data (trimDot (goToLower (goExt c.file))) = Except.ok parsed ∧
      c'.values = mergeMaps [] parsed := by
  unfold Config.readFromFile at h
  split at h
  · exact Except.noConfusion (congrArg Prod.snd h)
  · split at h
    · exact Except.noConfusion (congrArg Prod.snd h)
    · rename_i parsed heqd
      rename_i data heqr hx
      injection h with hc _
      refine ⟨data, parsed, heqr, heqd, ?_⟩
      rw [← hc]
      rfl

theorem readFromFile_values_eq (ca cb : Config) (sys : Sys)
    (hfile : ca.file = cb.file) (hload : ca.loaders = cb.loaders)
    (ca' cb' : Config)
    (h1 : ca.readFromFile sys = (ca', Except.ok ()))
    (h2 : cb.readFromFile sys = (cb', Except.ok ())) :
    ca'.values = cb'.values := by
  have hdec : ∀ d f, cb.decodeConfig d f = ca.decodeConfig d f := by
    intro d f
    unfold Config.decodeConfig
    rw [hload]
  obtain ⟨d1, p1, hA1, hB1, hv1⟩ := readFromFile_ok_values ca sys ca' h1
  obtain ⟨d2, p2, hA2, hB2, hv2⟩ := readFromFile_ok_values cb sys cb' h2
  rw [← hfile] at hA2 hB2
  rw [hdec] at hB2
  rw [hA1] at hA2
  injection hA2 with hd
  subst hd
  rw [hB1] at hB2
  injection hB2 with hp
  subst hp
  rw [hv1, hv2]

/-- C4: a successful full file read replaces `values` entirely — the result
holds no trace of the prior mapping (two stores differing only in their
prior `values` end with identical `values`, so a key absent from the newly
decoded file cannot survive) — while `readConfig` and `mergeConfigMap`
merge additively into the current mapping: a key absent from the incoming
data keeps exactly its prior value, and no previously present key ever
disappears. -/
theorem readIn_replaces_merge_adds :
    (∀ (ca cb : Config) (sys : Sys) (ca' cb' : Config),
        ca.file = cb.file → ca.cfgName = cb.cfgName → ca.cfgType = cb.cfgType →
        ca.cfgPaths = cb.cfgPaths → ca.loaders = cb.loaders →
        ¬(ca.file = "" ∧ ca.cfgName = "") →
        ca.readInConfigLocked sys = (ca', Except.ok ()) →
        cb.readInConfigLocked sys = (cb', Except.ok ()) →
        ca'.values = cb'.values)
    ∧ (∀ (c : Config) (data : List (String × Value)) (q : String),
        lookupKey data q = none →
          lookupKey ((c.mergeConfigMapLocked data).values) q = lookupKey c.values q)
    ∧ (∀ (c : Config) (r : Except String Bytes) (c' : Config),
        c.readConfig r = (c', Except.ok ()) →
          ∀ q, (lookupKey c.values q).isSome → (lookupKey c'.values q).isSome)
    ∧ (∀ (c : Config) (data : List (String × Value)) (q : String),
        lookupKey data q = none →
          lookupKey ((c.mergeConfigMap data).values) q = lookupKey c.values q) := by
  refine ⟨?_, ?_, ?_, ?_⟩
  · intro ca cb sys ca' cb' hfile hname hty hpaths hload hnot h1 h2
    unfold Config.readInConfigLocked at h1 h2
    rw [← hfile, ← hname, ← hty, ← hpaths] at h2
    by_cases hf : ca.file = ""
    · by_cases hn : ca.cfgName = ""
      · exact absurd ⟨hf, hn⟩ hnot
      · rw [if_pos hf, if_neg hn] at h1 h2
        cases hs : searchConfigFile ca.cfgPaths ca.cfgName ca.cfgType sys.statOk with
        | none =>
            rw [hs] at h1
            exact Except.noConfusion (congrArg Prod.snd h1)
        | some name =>
            rw [hs] at h1 h2
            simp only [] at h1 h2
            refine readFromFile_values_eq _ _ sys ?_ ?_ ca' cb' h1 h2
            · rfl
            · exact hload
    · rw [if_neg hf] at h1 h2
      exact readFromFile_values_eq ca cb sys hfile hload ca' cb' h1 h2
  · intro c data q h
    unfold Config.mergeConfigMapLocked
    exact mergeMaps_lookupKey_of_src_none c.values data q h
  · intro c r c' h q hq
    unfold Config.readConfig at h
    by_cases ht : c.cfgType = ""
    · rw [if_pos ht] at h
      exact absurd (congrArg Prod.snd h) (by simp)
    · rw [if_neg ht] at h
      split at h
      · exact absurd (congrArg Prod.snd h) (by simp)
      · split at h
        · exact absurd (congrArg Prod.snd h) (by simp)
        · injection h with hc _
          rw [← hc]
          unfold Config.mergeConfigMapLocked
          exact mergeMaps_lookupKey_isSome_mono c.values _ q hq
  · intro c data q h
    unfold Config.mergeConfigMap Config.mergeConfigMapLocked
      normalizeLoadedMap cloneMap
    apply mergeMaps_lookupKey_of_src_none
    rw [lookupKey_eq_none_iff] at h ⊢
    rw [normalizeFields_keys, cloneFields_keys]
    exact h

/-- Witness for C4: merging a map without key `old` into a store holding
`old` leaves `old`'s value untouched. -/
theorem readIn_replaces_merge_adds_witness :
    lookupKey ((Config.mergeConfigMapLocked
      { defaults := [], values := [("old", Value.vint 1)], envPre := "", envBindings := [],
        cfgName := "", cfgType := "", cfgPaths := [], file := "", automatic := false,
        hasOnChange := false, loaders := [] }
      [("new", Value.vint 2)]).values) "old"
    = lookupKey [("old", Value.vint 1)] "old" :=
  readIn_replaces_merge_adds.2.1
    { defaults := [], values := [("old", Value.vint 1)], envPre := "", envBindings := [],
      cfgName := "", cfgType := "", cfgPaths := [], file := "", automatic := false,
      hasOnChange := false, loaders := [] }
    [("new", Value.vint 2)] "old" rfl

theorem readFromFile_hasOnChange (c : Config) (sys : Sys) :
    ((c.readFromFile sys).1).hasOnChange = c.hasOnChange := by
  unfold Config.readFromFile
  split
  · rfl
  · split
    · rfl
    · rfl

theorem readInLocked_hasOnChange (c : Config) (sys : Sys) :
    ((c.readInConfigLocked sys).1).hasOnChange = c.hasOnChange := by
  unfold Config.readInConfigLocked
  split
  · split
    · rfl
    · split
      · rfl
      · exact readFromFile_hasOnChange _ sys
  · exact readFromFile_hasOnChange c sys

/-- C6: for one message delivered to the watch loop — modelled by its loop
body `watchStep` — a write-class event triggers the reload and, exactly when
it succeeds and a callback is registered, invokes that callback once,
observing the already-updated store; a failed reload, a non-write event and
an error-channel message invoke no callback (the failed reload still keeps
the store's previous values, see C5's theorem). -/
theorem watch_callback_spec :
    (∀ (c : Config) (sys : Sys),
        (c.readInConfigLocked sys).2 = Except.ok () → c.hasOnChange = true →
          c.watchStep sys (WatchMsg.fsEvent true)
            = ((c.readInConfigLocked sys).1, [(c.readInConfigLocked sys).1]))
    ∧ (∀ (c : Config) (sys : Sys) (e : ConfError),
        (c.readInConfigLocked sys).2 = Except.error e →
          c.watchStep sys (WatchMsg.fsEvent true) = ((c.readInConfigLocked sys).1, []))
    ∧ (∀ (c : Config) (sys : Sys), c.watchStep sys WatchMsg.fsError = (c, []))
    ∧ (∀ (c : Config) (sys : Sys), c.watchStep sys (WatchMsg.fsEvent false) = (c, [])) := by
  refine ⟨?_, ?_, fun c sys => rfl, fun c sys => rfl⟩
  · intro c sys hok hcb
    have hpres := readInLocked_hasOnChange c sys
    rcases hrc : c.readInConfigLocked sys with ⟨c2, r2⟩
    rw [hrc] at hok hpres
    simp only [] at hok hpres
    subst hok
    rw [hcb] at hpres
    simp [Config.watchStep, hrc, hpres]
  · intro c sys e herr
    rcases hrc : c.readInConfigLocked sys with ⟨c2, r2⟩
    rw [hrc] at herr
    simp only [] at herr
    subst herr
    simp [Config.watchStep, hrc]

/-- Witness for C6: on a store watching `a.json` with a registered callback,
a write event under a loader that succeeds invokes the callback once with
the reloaded store, whose values are exactly the new file's content; under a
loader that fails, the callback is not invoked. -/
theorem watch_callback_spec_witness :
    (Config.watchStep
        { defaults := [], values := [("old", Value.vint 1)], envPre := "", envBindings := [],
          cfgName := "", cfgType := "", cfgPaths := [], file := "a.json", automatic := false,
          hasOnChange := true, loaders := [("json", fun _ => Except.ok [("k", Value.vstr "v")])] }
        { env := fun _ => none, statOk := fun _ => false, readFile := fun _ => Except.ok [] }
        (WatchMsg.fsEvent true)
      = ((Config.readInConfigLocked
          { defaults := [], values := [("old", Value.vint 1)], envPre := "", envBindings := [],
            cfgName := "", cfgType := "", cfgPaths := [], file := "a.json", automatic := false,
            hasOnChange := true, loaders := [("json", fun _ => Except.ok [("k", Value.vstr "v")])] }
          { env := fun _ => none, statOk := fun _ => false, readFile := fun _ => Except.ok [] }).1,
        [(Config.readInConfigLocked
          { defaults := [], values := [("old", Value.vint 1)], envPre := "", envBindings := [],
            cfgName := "", cfgType := "", cfgPaths := [], file := "a.json", automatic := false,
            hasOnChange := true, loaders := [("json", fun _ => Except.ok [("k", Value.vstr "v")])] }
          { env := fun _ => none, statOk := fun _ => false, readFile := fun _ => Except.ok [] }).1])
    ∧ ((Config.readInConfigLocked
          { defaults := [], values := [("old", Value.vint 1)], envPre := "", envBindings := [],
            cfgName := "", cfgType := "", cfgPaths := [], file := "a.json", automatic := false,
            hasOnChange := true, loaders := [("json", fun _ => Except.ok [("k", Value.vstr "v")])] }
          { env := fun _ => none, statOk := fun _ => false, readFile := fun _ => Except.ok [] }).1).values
        = [("k", Value.vstr "v")])
    ∧ Config.watchStep
        { defaults := [], values := [("old", Value.vint 1)], envPre := "", envBindings := [],
          cfgName := "", cfgType := "", cfgPaths := [], file := "a.json", automatic := false,
          hasOnChange := true, loaders := [("json", fun _ => Except.error "bad")] }
        { env := fun _ => none, statOk := fun _ => false, readFile := fun _ => Except.ok [] }
        (WatchMsg.fsEvent true)
      = ((Config.readInConfigLocked
          { defaults := [], values := [("old", Value.vint 1)], envPre := "", envBindings := [],
            cfgName := "", cfgType := "", cfgPaths := [], file := "a.json", automatic := false,
            hasOnChange := true, loaders := [("json", fun _ => Except.error "bad")] }
          { env := fun _ => none, statOk := fun _ => false, readFile := fun _ => Except.ok [] }).1,
        []) := by
  refine ⟨⟨watch_callback_spec.1 _ _ rfl rfl, ?_⟩,
    watch_callback_spec.2.1 _ _ (ConfError.loadFailed "bad") rfl⟩
  have hdata : ("a.json" : String).data = ['a', '.', 'j', 's', 'o', 'n'] := rfl
  have hjson : ("json" : String).data = ['j', 's', 'o', 'n'] := rfl
  simp [Config.readInConfigLocked, Config.readFromFile, Config.decodeConfig,
    Config.mergeConfigMapLocked, goExt, goSplit, splitOnChar, goToLower, trimDot,
    lookupLoader, normalizeLoadedMap, normalizeFields, normalizeValue, mergeMaps,
    setKey, lookupKey, hdata, hjson, List.asString]

/-- C8: the typed getters are total by construction (they return plain
values, never errors) and degrade to the zero value or empty container on a
missing key or a shape mismatch; the fixed coercion table holds: the
string-sequence getter splits a scalar string on commas trimming each
piece, the integer getter parses decimal strings (fallback 0) and truncates
floats toward zero, and the boolean getter treats nonzero numerics as
true. -/
theorem typed_getters_spec :
    (∀ (c : Config) (sys : Sys) (k : String), c.get sys k = none →
        c.getString sys k = "" ∧ c.getInt sys k = 0 ∧ c.getBool sys k = false
          ∧ c.getStringSlice sys k = [] ∧ c.getIntSlice sys k = [])
    ∧ (∀ (c : Config) (sys : Sys) (k : String) (m : List (String × Value)),
        c.get sys k = some (Value.vmap m) →
          c.getInt sys k = 0 ∧ c.getBool sys k = false ∧ c.getStringSlice sys k = []
            ∧ c.getIntSlice sys k = [])
    ∧ (∀ s : String, s ≠ "" →
        toStringSlice (Value.vstr s) = some ((goSplit s ',').map goTrimSpace))
    ∧ toStringSlice (Value.vstr "a, b ,  c") = some ["a", "b", "c"]
    ∧ (∀ (c : Config) (sys : Sys) (k : String) (s : String),
        c.get sys k = some (Value.vstr s) → c.getInt sys k = (goAtoi s).getD 0)
    ∧ goAtoi "42" = some 42
    ∧ goAtoi "x42" = none
    ∧ (∀ (c : Config) (sys : Sys) (k : String) (q : Rat),
        c.get sys k = some (Value.vfloat q) → c.getInt sys k = ratTruncToZero q)
    ∧ ratTruncToZero (5 / 2 : Rat) = 2
    ∧ ratTruncToZero (-5 / 2 : Rat) = -2
    ∧ (∀ (c : Config) (sys : Sys) (k : String) (n : Int),
        c.get sys k = some (Value.vint n) → (c.getBool sys k = true ↔ n ≠ 0))
    ∧ (∀ (c : Config) (sys : Sys) (k : String) (q : Rat),
        c.get sys k = some (Value.vfloat q) → (c.getBool sys k = true ↔ q ≠ 0)) := by
  refine ⟨?_, ?_, ?_, ?_, ?_, rfl, rfl, ?_, ?_, ?_, ?_, ?_⟩
  · intro c sys k h
    refine ⟨?_, ?_, ?_, ?_, ?_⟩ <;>
      simp [Config.getString, Config.getInt, Config.getBool, Config.getStringSlice,
        Config.getIntSlice, h]
  · intro c sys k m h
    refine ⟨?_, ?_, ?_, ?_⟩ <;>
      simp [Config.getInt, Config.getBool, Config.getStringSlice, Config.getIntSlice,
        h, toStringSlice]
  · intro s hs
    simp [toStringSlice, hs]
  · have hdata : ("a, b ,  c" : String).data
        = ['a', ',', ' ', 'b', ' ', ',', ' ', ' ', 'c'] := rfl
    simp [toStringSlice, goSplit, splitOnChar, goTrimSpace, hdata, List.asString]
  · intro c sys k s h
    simp [Config.getInt, h]
  · intro c sys k q h
    simp [Config.getInt, h]
  · norm_num [ratTruncToZero]
  · norm_num [ratTruncToZero]
    rw [show ⌈-(5 / 2 : Rat)⌉ = -2 by norm_num [Int.ceil_eq_iff]]
  · intro c sys k n h
    simp [Config.getBool, h]
  · intro c sys k q h
    simp [Config.getBool, h]

/-- Witness for C8: on an empty store every getter yields its zero value,
and a stored nonzero integer reads as boolean true. -/
theorem typed_getters_spec_witness :
    (Config.getString
        { defaults := [], values := [], envPre := "", envBindings := [], cfgName := "",
          cfgType := "", cfgPaths := [], file := "", automatic := false, hasOnChange := false,
          loaders := [] }
        { env := fun _ => none, statOk := fun _ => false, readFile := fun _ => Except.error "" }
        "port" = ""
      ∧ Config.getInt
        { defaults := [], values := [], envPre := "", envBindings := [], cfgName := "",
          cfgType := "", cfgPaths := [], file := "", automatic := false, hasOnChange := false,
          loaders := [] }
        { env := fun _ => none, statOk := fun _ => false, readFile := fun _ => Except.error "" }
        "port" = 0
      ∧ Config.getBool
        { defaults := [], values := [], envPre := "", envBindings := [], cfgName := "",
          cfgType := "", cfgPaths := [], file := "", automatic := false, hasOnChange := false,
          loaders := [] }
        { env := fun _ => none, statOk := fun _ => false, readFile := fun _ => Except.error "" }
        "port" = false
      ∧ Config.getStringSlice
        { defaults := [], values := [], envPre := "", envBindings := [], cfgName := "",
          cfgType := "", cfgPaths := [], file := "", automatic := false, hasOnChange := false,
          loaders := [] }
        { env := fun _ => none, statOk := fun _ => false, readFile := fun _ => Except.error "" }
        "port" = []
      ∧ Config.getIntSlice
        { defaults := [], values := [], envPre := "", envBindings := [], cfgName := "",
          cfgType := "", cfgPaths := [], file := "", automatic := false, hasOnChange := false,
          loaders := [] }
        { env := fun _ => none, statOk := fun _ => false, readFile := fun _ => Except.error "" }
        "port" = [])
    ∧ (Config.getBool
        { defaults := [], values := [("flag", Value.vint 3)], envPre := "", envBindings := [],
          cfgName := "", cfgType := "", cfgPaths := [], file := "", automatic := false,
          hasOnChange := false, loaders := [] }
        { env := fun _ => none, statOk := fun _ => false, readFile := fun _ => Except.error "" }
        "flag" = true ↔ (3 : Int) ≠ 0) := by
  constructor
  · exact typed_getters_spec.1 _ _ "port" rfl
  · exact typed_getters_spec.2.2.2.2.2.2.2.2.2.2.1 _ _ "flag" 3 rfl

theorem tags_tSetKey (m : List (String × TValue)) (k : String) (v : TValue) :
    ∀ t ∈ tagsFields (tSetKey m k v), t ∈ tagsFields m ∨ t ∈ tagsOf v := by
  induction m with
  | nil =>
      intro t ht
      simp [tSetKey, tagsFields] at ht
      exact Or.inr ht
  | cons hd tl ih =>
      obtain ⟨k0, w⟩ := hd
      intro t ht
      by_cases h0 : k0 = k
      · rw [tSetKey, if_pos h0] at ht
        simp only [tagsFields, List.mem_append] at ht ⊢
        rcases ht with h | h
        · exact Or.inr h
        · exact Or.inl (Or.inr h)
      · rw [tSetKey, if_neg h0] at ht
        simp only [tagsFields, List.mem_append] at ht ⊢
        rcases ht with h | h
        · exact Or.inl (Or.inl h)
        · rcases ih t h with h' | h'
          · exact Or.inl (Or.inr h')
          · exact Or.inr h'

theorem tags_tLookupKey (m : List (String × TValue)) (k : String) (v : TValue)
    (h : tLookupKey m k = some v) : ∀ t ∈ tagsOf v, t ∈ tagsFields m := by
  induction m with
  | nil => simp [tLookupKey] at h
  | cons hd tl ih =>
      obtain ⟨k0, w⟩ := hd
      by_cases h0 : k0 = k
      · rw [tLookupKey, if_pos h0] at h
        injection h with hv
        subst hv
        intro t ht
        simp only [tagsFields, List.mem_append]
        exact Or.inl ht
      · rw [tLookupKey, if_neg h0] at h
        intro t ht
        simp only [tagsFields, List.mem_append]
        exact Or.inr (ih h t ht)

theorem tMergeMaps_cons_map_hit (dst : List (String × TValue)) (k : String) (tn : Nat)
    (nm rest : List (String × TValue)) (te : Nat) (em : List (String × TValue))
    (h : tLookupKey dst k = some (TValue.tmap te em)) :
    tMergeMaps dst ((k, TValue.tmap tn nm) :: rest)
      = tMergeMaps (tSetKey dst k (TValue.tmap te (tMergeMaps em nm))) rest := by
  rw [tMergeMaps, h]

theorem tMergeMaps_cons_map_miss (dst : List (String × TValue)) (k : String) (tn : Nat)
    (nm rest : List (String × TValue))
    (h : ∀ te em, tLookupKey dst k ≠ some (TValue.tmap te em)) :
    tMergeMaps dst ((k, TValue.tmap tn nm) :: rest)
      = tMergeMaps (tSetKey dst k (TValue.tmap tn nm)) rest := by
  rw [tMergeMaps]
  cases hl : tLookupKey dst k with
  | none => rfl
  | some w =>
      cases w with
      | tmap te em => exact absurd hl (h te em)
      | tnull => rfl
      | tstr s => rfl
      | tint n => rfl
      | tint64 n => rfl
      | tfloat q => rfl
      | tbool b => rfl
      | tarr tg xs => rfl
      | tmapS tg ms => rfl
      | tmapA tg mp => rfl

theorem tMergeMaps_cons_nonmap (dst : List (String × TValue)) (k : String) (v : TValue)
    (rest : List (String × TValue)) (h : ∀ tn nm, v ≠ TValue.tmap tn nm) :
    tMergeMaps dst ((k, v) :: rest) = tMergeMaps (tSetKey dst k v) rest := by
  cases v
  case tmap tn nm => exact absurd rfl (h tn nm)
  all_goals rw [tMergeMaps]
  all_goals exact fun tn nm he => h tn nm he

theorem tags_tMergeMaps (dst src : List (String × TValue)) :
    ∀ t ∈ tagsFields (tMergeMaps dst src), t ∈ tagsFields dst ∨ t ∈ tagsFields src := by
  induction dst, src using tMergeMaps.induct with
  | case1 dst =>
      intro t ht
      exact Or.inl (by simpa [tMergeMaps] using ht)
  | case2 dst k tn nm rest te em hlk ih1 ih2 =>
      intro t ht
      rw [tMergeMaps_cons_map_hit dst k tn nm rest te em hlk] at ht
      rcases ih2 t ht with h | h
      · rcases tags_tSetKey dst k _ t h with h' | h'
        · exact Or.inl h'
        · simp only [tagsOf, List.mem_cons] at h'
          rcases h' with h' | h'
          · subst h'
            exact Or.inl (tags_tLookupKey dst k _ hlk t (by simp [tagsOf]))
          · rcases ih1 t h' with h'' | h''
            · refine Or.inl (tags_tLookupKey dst k _ hlk t ?_)
              simp only [tagsOf, List.mem_cons]
              exact Or.inr h''
            · right
              simp only [tagsFields, tagsOf, List.mem_append, List.mem_cons]
              exact Or.inl (Or.inr h'')
      · right
        simp only [tagsFields, List.mem_append]
        exact Or.inr h
  | case3 dst k tn nm rest hlk ih =>
      intro t ht
      rw [tMergeMaps_cons_map_miss dst k tn nm rest (fun te em he => hlk te em he)] at ht
      rcases ih t ht with h | h
      · rcases tags_tSetKey dst k _ t h with h' | h'
        · exact Or.inl h'
        · right
          simp only [tagsFields, List.mem_append]
          exact Or.inl h'
      · right
        simp only [tagsFields, List.mem_append]
        exact Or.inr h
  | case4 dst k v rest hv ih =>
      intro t ht
      rw [tMergeMaps_cons_nonmap dst k v rest (fun tn nm he => hv tn nm he)] at ht
      rcases ih t ht with h | h
      · rcases tags_tSetKey dst k v t h with h' | h'
        · exact Or.inl h'
        · right
          simp only [tagsFields, List.mem_append]
          exact Or.inl h'
      · right
        simp only [tagsFields, List.mem_append]
        exact Or.inr h

theorem clone_tags_fields :
    ∀ (m : List (String × TValue)) (n : Nat), coveredFields m = true →
      n ≤ (tCloneFields m n).2 ∧ ∀ t ∈ tagsFields (tCloneFields m n).1, n ≤ t := by
  refine tCloneFields.induct
    (fun v n => cloneCovered v = true →
      n ≤ (tCloneValue v n).2 ∧ ∀ t ∈ tagsOf (tCloneValue v n).1, n ≤ t)
    (fun xs n => coveredList xs = true →
      n ≤ (tCloneList xs n).2 ∧ ∀ t ∈ tagsList (tCloneList xs n).1, n ≤ t)
    (fun ps n => coveredPairs ps = true →
      n ≤ (tClonePairs ps n).2 ∧ ∀ t ∈ tagsPairs (tClonePairs ps n).1, n ≤ t)
    (fun m n => coveredFields m = true →
      n ≤ (tCloneFields m n).2 ∧ ∀ t ∈ tagsFields (tCloneFields m n).1, n ≤ t)
    ?_ ?_ ?_ ?_ ?_ ?_ ?_ ?_ ?_ ?_
  · intro tag m n ih hcov
    simp only [cloneCovered] at hcov
    obtain ⟨h2, htags⟩ := ih hcov
    simp only [tCloneValue]
    refine ⟨by omega, ?_⟩
    intro t ht
    simp only [tagsOf, List.mem_cons] at ht
    rcases ht with ht | ht
    · omega
    · have := htags t ht
      omega
  · intro tag m n ih hcov
    simp only [cloneCovered] at hcov
    obtain ⟨h2, htags⟩ := ih hcov
    simp only [tCloneValue]
    refine ⟨by omega, ?_⟩
    intro t ht
    simp only [tagsOf, List.mem_cons] at ht
    rcases ht with ht | ht
    · omega
    · have := htags t ht
      omega
  · intro tag xs n ih hcov
    simp only [cloneCovered] at hcov
    obtain ⟨h2, htags⟩ := ih hcov
    simp only [tCloneValue]
    refine ⟨by omega, ?_⟩
    intro t ht
    simp only [tagsOf, List.mem_cons] at ht
    rcases ht with ht | ht
    · omega
    · have := htags t ht
      omega
  · intro v n h1 h2 h3 hcov
    cases v
    case tmap tag m => exact absurd rfl (by intro he; exact h1 tag m he)
    case tmapA tag m => exact absurd rfl (by intro he; exact h2 tag m he)
    case tarr tag xs => exact absurd rfl (by intro he; exact h3 tag xs he)
    case tmapS tag ms => simp [cloneCovered] at hcov
    all_goals simp [tCloneValue, tagsOf]
  · intro n _
    simp [tCloneList, tagsList]
  · intro v rest n rv ihv ihr hcov
    have hrv : rv = tCloneValue v n := rfl
    rw [hrv] at ihr
    simp only [coveredList, Bool.and_eq_true] at hcov
    obtain ⟨hv2, hvtags⟩ := ihv hcov.1
    obtain ⟨hr2, hrtags⟩ := ihr hcov.2
    simp only [tCloneList]
    constructor
    · omega
    · intro t ht
      simp only [tagsList, List.mem_append] at ht
      rcases ht with ht | ht
      · exact hvtags t ht
      · have := hrtags t ht
        omega
  · intro n _
    simp [tCloneFields, tagsFields]
  · intro k v rest n rv ihv ihr hcov
    have hrv : rv = tCloneValue v n := rfl
    rw [hrv] at ihr
    simp only [coveredFields, Bool.and_eq_true] at hcov
    obtain ⟨hv2, hvtags⟩ := ihv hcov.1
    obtain ⟨hr2, hrtags⟩ := ihr hcov.2
    simp only [tCloneFields]
    constructor
    · omega
    · intro t ht
      simp only [tagsFields, List.mem_append] at ht
      rcases ht with ht | ht
      · exact hvtags t ht
      · have := hrtags t ht
        omega
  · intro n _
    simp [tClonePairs, tagsPairs]
  · intro k v rest n rv ihv ihr hcov
    have hrv : rv = tCloneValue v n := rfl
    rw [hrv] at ihr
    simp only [coveredPairs, Bool.and_eq_true] at hcov
    obtain ⟨⟨hk, hv1⟩, hrest⟩ := hcov
    obtain ⟨hv2, hvtags⟩ := ihv hv1
    obtain ⟨hr2, hrtags⟩ := ihr hrest
    simp only [tClonePairs]
    constructor
    · omega
    · intro t ht
      rw [List.isEmpty_iff] at hk
      simp only [tagsPairs, hk, List.nil_append, List.mem_append] at ht
      rcases ht with ht | ht
      · exact hvtags t ht
      · have := hrtags t ht
        omega

theorem normalize_tags_fields :
    ∀ (m : List (String × TValue)) (n : Nat),
      n ≤ (tNormalizeFields m n).2 ∧
        ∀ t ∈ tagsFields (tNormalizeFields m n).1, t ∈ tagsFields m ∨ n ≤ t := by
  refine tNormalizeFields.induct
    (fun v n => n ≤ (tNormalizeValue v n).2 ∧
      ∀ t ∈ tagsOf (tNormalizeValue v n).1, t ∈ tagsOf v ∨ n ≤ t)
    (fun xs n => n ≤ (tNormalizeList xs n).2 ∧
      ∀ t ∈ tagsList (tNormalizeList xs n).1, t ∈ tagsList xs ∨ n ≤ t)
    (fun ps n => n ≤ (tNormalizePairs ps n).2 ∧
      ∀ t ∈ tagsFields (tNormalizePairs ps n).1, t ∈ tagsPairs ps ∨ n ≤ t)
    (fun m n => n ≤ (tNormalizeFields m n).2 ∧
      ∀ t ∈ tagsFields (tNormalizeFields m n).1, t ∈ tagsFields m ∨ n ≤ t)
    ?_ ?_ ?_ ?_ ?_ ?_ ?_ ?_ ?_ ?_
  · intro tag m n ih
    obtain ⟨h2, htags⟩ := ih
    simp only [tNormalizeValue]
    refine ⟨h2, ?_⟩
    intro t ht
    simp only [tagsOf, List.mem_cons] at ht ⊢
    rcases ht with ht | ht
    · exact Or.inl (Or.inl ht)
    · rcases htags t ht with h | h
      · exact Or.inl (Or.inr h)
      · exact Or.inr h
  · intro tag m n ih
    obtain ⟨h2, htags⟩ := ih
    simp only [tNormalizeValue]
    refine ⟨by omega, ?_⟩
    intro t ht
    simp only [tagsOf, List.mem_cons] at ht ⊢
    rcases ht with ht | ht
    · omega
    · rcases htags t ht with h | h
      · exact Or.inl (Or.inr h)
      · right
        omega
  · intro tag xs n ih
    obtain ⟨h2, htags⟩ := ih
    simp only [tNormalizeValue]
    refine ⟨h2, ?_⟩
    intro t ht
    simp only [tagsOf, List.mem_cons] at ht ⊢
    rcases ht with ht | ht
    · exact Or.inl (Or.inl ht)
    · rcases htags t ht with h | h
      · exact Or.inl (Or.inr h)
      · exact Or.inr h
  · intro v n h1 h2 h3
    cases v
    case tmap tag m => exact absurd rfl (by intro he; exact h1 tag m he)
    case tmapA tag m => exact absurd rfl (by intro he; exact h2 tag m he)
    case tarr tag xs => exact absurd rfl (by intro he; exact h3 tag xs he)
    all_goals simp [tNormalizeValue, tagsOf]
  · intro n
    simp [tNormalizeList, tagsList]
  · intro v rest n rv ihv ihr
    have hrv : rv = tNormalizeValue v n := rfl
    rw [hrv] at ihr
    obtain ⟨hv2, hvtags⟩ := ihv
    obtain ⟨hr2, hrtags⟩ := ihr
    simp only [tNormalizeList]
    constructor
    · omega
    · intro t ht
      simp only [tagsList, List.mem_append] at ht ⊢
      rcases ht with ht | ht
      · rcases hvtags t ht with h | h
        · exact Or.inl (Or.inl h)
        · exact Or.inr h
      · rcases hrtags t ht with h | h
        · exact Or.inl (Or.inr h)
        · right
          omega
  · intro n
    simp [tNormalizeFields, tagsFields]
  · intro k v rest n rv ihv ihr
    have hrv : rv = tNormalizeValue v n := rfl
    rw [hrv] at ihr
    obtain ⟨hv2, hvtags⟩ := ihv
    obtain ⟨hr2, hrtags⟩ := ihr
    simp only [tNormalizeFields]
    constructor
    · omega
    · intro t ht
      simp only [tagsFields, List.mem_append] at ht ⊢
      rcases ht with ht | ht
      · rcases hvtags t ht with h | h
        · exact Or.inl (Or.inl h)
        · exact Or.inr h
      · rcases hrtags t ht with h | h
        · exact Or.inl (Or.inr h)
        · right
          omega
  · intro n
    simp [tNormalizePairs, tagsFields]
  · intro k v rest n rv ihv ihr
    have hrv : rv = tNormalizeValue v n := rfl
    rw [hrv] at ihr
    obtain ⟨hv2, hvtags⟩ := ihv
    obtain ⟨hr2, hrtags⟩ := ihr
    simp only [tNormalizePairs]
    constructor
    · omega
    · intro t ht
      simp only [tagsFields, tagsPairs, List.mem_append] at ht ⊢
      rcases ht with ht | ht
      · rcases hvtags t ht with h | h
        · exact Or.inl (Or.inl (Or.inr h))
        · exact Or.inr h
      · rcases hrtags t ht with h | h
        · exact Or.inl (Or.inr h)
        · right
          omega

/-- C9 counterexample: normalization does not produce a new copy.  On the
loader-style mapping `{"a": {"x": 1}}` whose inner `map[string]any` is the
runtime object with tag 7, `normalizeLoadedMap` returns that very object
(tag 7 reappears in the output, which is the input itself), so the result
shares mutable structure with the loader-returned mapping — a loader that
later mutates its retained map would corrupt the stored configuration. -/
theorem normalize_shares_structure :
    (tNormalizeFields [("a", TValue.tmap 7 [("x", TValue.tint 1)])] 100).1
      = [("a", TValue.tmap 7 [("x", TValue.tint 1)])]
    ∧ 7 ∈ tagsFields [("a", TValue.tmap 7 [("x", TValue.tint 1)])]
    ∧ ¬ (∀ t ∈ tagsFields [("a", TValue.tmap 7 [("x", TValue.tint 1)])],
          t ∉ tagsFields (tNormalizeFields [("a", TValue.tmap 7 [("x", TValue.tint 1)])] 100).1) := by
  refine ⟨?_, ?_, ?_⟩
  · simp [tNormalizeFields, tNormalizeValue]
  · simp [tagsFields, tagsOf]
  · intro hdisj
    exact hdisj 7 (by simp [tagsFields, tagsOf])
      (by simp [tNormalizeFields, tNormalizeValue, tagsFields, tagsOf])

/-- C9 (amended): the decode-path normalization returns containers shared
with the loader's mapping (see the counterexample), but the
`MergeConfigMap` path does own its data: the caller's map is deep-copied
before normalization and merging, so provided the caller's containers are
of the kinds `cloneValue` copies (string-keyed maps, any-keyed maps with
identity-free keys, and `[]any` sequences — a `map[string]string` value is
shared by the source and excluded), no container object of the caller's map
is reachable from the stored mapping afterwards; since tags model object
identity, a later caller-side mutation of the argument cannot alter stored
state. -/
theorem mergeConfigMap_ownership (values data : List (String × TValue)) (n : Nat)
    (hcov : coveredFields data = true)
    (hfresh : ∀ t ∈ tagsFields data, t < n)
    (hdisj : ∀ t ∈ tagsFields data, t ∉ tagsFields values) :
    ∀ t ∈ tagsFields data, t ∉ tagsFields (tMergeConfigMap values data n) := by
  intro t ht hmem
  unfold tMergeConfigMap at hmem
  rcases tags_tMergeMaps values _ t hmem with hv | hn
  · exact hdisj t ht hv
  · have hclone := clone_tags_fields data n hcov
    have hnorm := normalize_tags_fields (tCloneFields data n).1 (tCloneFields data n).2
    rcases hnorm.2 t hn with hin | hge
    · have := hclone.2 t hin
      have := hfresh t ht
      omega
    · have := hclone.1
      have := hfresh t ht
      omega

/-- Witness for C9's amended theorem: a caller map (inner container tag 1,
all containers clone-covered) merged with allocator starting at 10 into a
store holding an unrelated container (tag 0); tag 1 is unreachable from the
stored result. -/
theorem mergeConfigMap_ownership_witness :
    1 ∉ tagsFields (tMergeConfigMap [("keep", TValue.tmap 0 [])]
      [("new", TValue.tmap 1 [("x", TValue.tint 2)])] 10) := by
  apply mergeConfigMap_ownership [("keep", TValue.tmap 0 [])]
    [("new", TValue.tmap 1 [("x", TValue.tint 2)])] 10
  · simp [coveredFields, cloneCovered]
  · intro t htl
    simp [tagsFields, tagsOf] at htl
    omega
  · intro t htl
    simp [tagsFields, tagsOf] at htl ⊢
    omega
  · simp [tagsFields, tagsOf]

end GoConf
